import Mathlib

/-!
# Verification of minim's cross-service matching and metadata-merge behaviour

This development embeds, as Lean definitions, the track-matching code from the
repository's documentation notebook
(`docs/source/notebooks/user_guide/editing_audio_metadata.ipynb`) together with
models of the `minim.audio` metadata-merge and format-conversion operations and
of `minim.utility.levenshtein_ratio`, and proves properties of the Fuzzy Entity
Matcher and Metadata Merge components over these definitions.
-/

deriving instance DecidableEq for Except

namespace Minim

/-- A normalized view of one search result from one vendor, as consumed by the
notebook matching loops: display title (`trackName`), primary contributor
(`artistName`), optional external identifier (`isrc`), and a secondary count
field (`trackCount`). -/
structure Candidate where
  artistName : String
  trackName : String
  isrc : Option String := none
  trackCount : Option Nat := none
deriving DecidableEq, Repr

/-- Python's `str.lower()` (restricted to ASCII case mapping). -/
def pyLower (s : String) : String := String.mk (s.data.map Char.toLower)

/-- Modelled from the spec: `minim.utility.levenshtein_ratio` (the file
`minim/utility.py` is not among the provided sources).  A normalized similarity
score between two strings in the closed interval [0, 1] (1 = identical), based
on the Levenshtein string-edit distance: `1 - distance / max(len a, len b)`. -/
def levenshtein_ratio (a b : String) : ℚ :=
  let m := max a.length b.length
  if m = 0 then 1
  else 1 - ((levenshtein Levenshtein.defaultCost a.data b.data : ℕ) : ℚ) / (m : ℚ)

/-- `numpy.argmax` over a list of scores, paired with the maximal value: the
result is the index of the first occurrence of the maximum value, together with
that value; `none` on the empty list (numpy raises `ValueError` there). -/
def argmaxCore : List ℚ → Option (Nat × ℚ)
  | [] => none
  | x :: xs =>
    match argmaxCore xs with
    | none => some (0, x)
    | some (i, v) => if x < v then some (i + 1, v) else some (0, x)

/-- `numpy.argmax`: index of the first occurrence of the maximum. -/
def np_argmax (l : List ℚ) : Option Nat := (argmaxCore l).map Prod.fst

/-- The notebook's query string: `f"{audio_file.artist} {audio_file.title}".lower()`. -/
def queryText (artist title : String) : String := pyLower (artist ++ " " ++ title)

/-- The notebook's candidate string: `f"{r['artistName']} {r['trackName']}".lower()`. -/
def candText (r : Candidate) : String := pyLower (r.artistName ++ " " ++ r.trackName)

/-- The similarity score the notebook code computes for one candidate. -/
def scoreOf (query : String) (r : Candidate) : ℚ := levenshtein_ratio query (candText r)

/-- The notebook's fuzzy selection
`itunes_results[np.argmax(utility.levenshtein_ratio(query, [...]))]`,
with Python/numpy error semantics made explicit: `np.argmax` of an empty
sequence raises `ValueError`; an out-of-range index raises `IndexError`. -/
def itunes_pick (query : String) (results : List Candidate) : Except String Candidate :=
  match np_argmax (results.map (scoreOf query)) with
  | none => Except.error "ValueError: attempt to get argmax of an empty sequence"
  | some i =>
    match results[i]? with
    | some r => Except.ok r
    | none => Except.error "IndexError: list index out of range"

/-- The notebook's identifier selection
`next((r for r in tidal_results if r["isrc"] == audio_file.isrc), None)`. -/
def tidal_pick (isrc : Option String) (results : List Candidate) : Option Candidate :=
  results.find? (fun r => r.isrc == isrc)

/-- The notebook's identifier selection followed immediately by
`tidal_track["id"]`: when `next` produced `None`, Python raises `TypeError`. -/
def tidal_flow (isrc : Option String) (results : List Candidate) : Except String Candidate :=
  match tidal_pick isrc results with
  | none => Except.error "TypeError: NoneType object is not subscriptable"
  | some r => Except.ok r

/-- The claim's identifier normalization, following the spec's words: compare
identifiers after case normalization and leading-zero stripping. -/
def spec_normalize_id (s : String) : String :=
  String.mk ((pyLower s).data.dropWhile (· = '0'))

/-! ## Metadata Merge model

The implementation of the `minim.audio` handlers (`minim/audio.py`) is not
among the provided sources; only its generated API pages and notebook
transcripts are.  The merge behaviour is therefore modelled from the spec. -/

/-- The mutable, in-memory metadata fields of one audio file.  Field
presence/absence is meaningful, so every field is an `Option`. -/
structure TagSet where
  album : Option String := none
  album_artist : Option String := none
  artist : Option String := none
  comment : Option String := none
  compilation : Option Bool := none
  composer : Option (List String) := none
  copyright : Option String := none
  date : Option String := none
  genre : Option String := none
  isrc : Option String := none
  lyrics : Option String := none
  tempo : Option Nat := none
  title : Option String := none
  disc_number : Option Nat := none
  disc_count : Option Nat := none
  track_number : Option Nat := none
  track_count : Option Nat := none
  artwork : Option (List Nat) := none
deriving DecidableEq, Repr

/-- Modelled from the spec: the per-scalar-field merge rule of the
`set_metadata_using_*()` methods.  If the destination field is absent, set it
from the source (when provided); if present and overwrite was not requested,
keep it; if present and overwrite was requested, replace it with the source
value (when provided). -/
def mergeScalar {α : Type} (dst src : Option α) (overwrite : Bool) : Option α :=
  match dst with
  | none => src
  | some d =>
    match src with
    | none => some d
    | some s => if overwrite then some s else some d

/-- Case-insensitive exact string comparison used by the list-field merge. -/
def sameNameCI (a b : String) : Bool := pyLower a == pyLower b

/-- Modelled from the spec: the merge rule for list-valued fields (composer).
When the destination is present and overwrite is requested, source values not
already present (by case-insensitive exact string comparison only) are
appended; otherwise the scalar present/absent rule applies. -/
def mergeNameList (dst src : Option (List String)) (overwrite : Bool) :
    Option (List String) :=
  match dst with
  | none => src
  | some d =>
    match src with
    | none => some d
    | some s =>
      if overwrite then some (d ++ s.filter (fun x => !(d.any (sameNameCI x))))
      else some d

/-- Modelled from the spec: one Metadata Merge call (`set_metadata_using_*`)
applying a vendor-sourced field mapping onto a `TagSet`, field by field. -/
def mergeTags (dst src : TagSet) (overwrite : Bool) : TagSet where
  album := mergeScalar dst.album src.album overwrite
  album_artist := mergeScalar dst.album_artist src.album_artist overwrite
  artist := mergeScalar dst.artist src.artist overwrite
  comment := mergeScalar dst.comment src.comment overwrite
  compilation := mergeScalar dst.compilation src.compilation overwrite
  composer := mergeNameList dst.composer src.composer overwrite
  copyright := mergeScalar dst.copyright src.copyright overwrite
  date := mergeScalar dst.date src.date overwrite
  genre := mergeScalar dst.genre src.genre overwrite
  isrc := mergeScalar dst.isrc src.isrc overwrite
  lyrics := mergeScalar dst.lyrics src.lyrics overwrite
  tempo := mergeScalar dst.tempo src.tempo overwrite
  title := mergeScalar dst.title src.title overwrite
  disc_number := mergeScalar dst.disc_number src.disc_number overwrite
  disc_count := mergeScalar dst.disc_count src.disc_count overwrite
  track_number := mergeScalar dst.track_number src.track_number overwrite
  track_count := mergeScalar dst.track_count src.track_count overwrite
  artwork := mergeScalar dst.artwork src.artwork overwrite

/-- An audio-file handler: the in-memory `TagSet` plus the file's intrinsic
technical properties, as printed by the notebook's `print_metadata`. -/
structure AudioFile where
  tags : TagSet
  bit_depth : Option Nat
  bitrate : Nat
  channel_count : Nat
  codec : String
  sample_rate : Nat
deriving DecidableEq, Repr

/-- Modelled from the spec: a `set_metadata_using_*()` call mutates only the
handler's `TagSet`; the technical properties are read-only. -/
def set_metadata (f : AudioFile) (src : TagSet) (overwrite : Bool) : AudioFile :=
  { f with tags := mergeTags f.tags src overwrite }

/-- Modelled from the spec and the notebook transcript: `convert()` transcodes
the file to the target container format, returning a handler for the target
format that keeps every in-memory tag field (and the channel count and sample
rate), while the format-intrinsic bit depth, bitrate and codec take the values
determined by the transcode. -/
def convert (f : AudioFile) (target : String) (newBitDepth : Option Nat)
    (newBitrate : Nat) : AudioFile where
  tags := f.tags
  bit_depth := newBitDepth
  bitrate := newBitrate
  channel_count := f.channel_count
  codec := target
  sample_rate := f.sample_rate

/-! ## Properties of the `numpy.argmax` model -/

theorem argmaxCore_cons_ne_none {x : ℚ} {xs : List ℚ} : argmaxCore (x :: xs) ≠ none := by
  simp only [argmaxCore]
  cases argmaxCore xs with
  | none => simp
  | some p =>
    obtain ⟨i, v⟩ := p
    dsimp only
    split <;> simp

theorem argmaxCore_eq_none {l : List ℚ} (h : argmaxCore l = none) : l = [] := by
  cases l with
  | nil => rfl
  | cons x xs => exact absurd h argmaxCore_cons_ne_none

theorem argmaxCore_getElem {l : List ℚ} {i : Nat} {v : ℚ}
    (h : argmaxCore l = some (i, v)) : l[i]? = some v := by
  induction l generalizing i v with
  | nil => simp [argmaxCore] at h
  | cons x xs ih =>
    simp only [argmaxCore] at h
    cases hx : argmaxCore xs with
    | none =>
      rw [hx] at h
      simp only [Option.some.injEq, Prod.mk.injEq] at h
      obtain ⟨rfl, rfl⟩ := h
      simp
    | some p =>
      obtain ⟨j, w⟩ := p
      rw [hx] at h
      by_cases hc : x < w
      · simp only [if_pos hc, Option.some.injEq, Prod.mk.injEq] at h
        obtain ⟨rfl, rfl⟩ := h
        simpa using ih hx
      · simp only [if_neg hc, Option.some.injEq, Prod.mk.injEq] at h
        obtain ⟨rfl, rfl⟩ := h
        simp

theorem argmaxCore_le {l : List ℚ} {i : Nat} {v : ℚ}
    (h : argmaxCore l = some (i, v)) : ∀ a ∈ l, a ≤ v := by
  induction l generalizing i v with
  | nil => simp
  | cons x xs ih =>
    intro a ha
    simp only [argmaxCore] at h
    cases hx : argmaxCore xs with
    | none =>
      have hxs : xs = [] := argmaxCore_eq_none hx
      subst hxs
      rw [hx] at h
      simp only [Option.some.injEq, Prod.mk.injEq] at h
      obtain ⟨rfl, rfl⟩ := h
      simp only [List.mem_singleton] at ha
      exact le_of_eq ha
    | some p =>
      obtain ⟨j, w⟩ := p
      rw [hx] at h
      rcases List.mem_cons.mp ha with rfl | hmem
      · by_cases hc : a < w
        · simp only [if_pos hc, Option.some.injEq, Prod.mk.injEq] at h
          obtain ⟨rfl, rfl⟩ := h
          exact le_of_lt hc
        · simp only [if_neg hc, Option.some.injEq, Prod.mk.injEq] at h
          obtain ⟨rfl, rfl⟩ := h
          exact le_refl a
      · have hw : a ≤ w := ih hx a hmem
        by_cases hc : x < w
        · simp only [if_pos hc, Option.some.injEq, Prod.mk.injEq] at h
          obtain ⟨rfl, rfl⟩ := h
          exact hw
        · simp only [if_neg hc, Option.some.injEq, Prod.mk.injEq] at h
          obtain ⟨rfl, rfl⟩ := h
          exact le_trans hw (not_lt.mp hc)

theorem argmaxCore_first {l : List ℚ} {i : Nat} {v : ℚ}
    (h : argmaxCore l = some (i, v)) :
    ∀ j, j < i → ∀ a, l[j]? = some a → a < v := by
  induction l generalizing i v with
  | nil => simp [argmaxCore] at h
  | cons x xs ih =>
    intro j hj a ha
    simp only [argmaxCore] at h
    cases hx : argmaxCore xs with
    | none =>
      rw [hx] at h
      simp only [Option.some.injEq, Prod.mk.injEq] at h
      obtain ⟨rfl, rfl⟩ := h
      exact absurd hj (Nat.not_lt_zero j)
    | some p =>
      obtain ⟨k, w⟩ := p
      rw [hx] at h
      by_cases hc : x < w
      · simp only [if_pos hc, Option.some.injEq, Prod.mk.injEq] at h
        obtain ⟨rfl, rfl⟩ := h
        cases j with
        | zero =>
          simp only [List.getElem?_cons_zero, Option.some.injEq] at ha
          subst ha
          exact hc
        | succ n =>
          simp only [List.getElem?_cons_succ] at ha
          exact ih hx n (by omega) a ha
      · simp only [if_neg hc, Option.some.injEq, Prod.mk.injEq] at h
        obtain ⟨rfl, rfl⟩ := h
        exact absurd hj (Nat.not_lt_zero j)

/-- Characterization of a successful fuzzy selection: the returned candidate
sits at an index whose score is maximal over the whole sequence, and every
earlier candidate scores strictly lower. -/
theorem itunes_pick_ok_spec {q : String} {rs : List Candidate} {c : Candidate}
    (h : itunes_pick q rs = Except.ok c) :
    ∃ i : Nat, rs[i]? = some c ∧
      (∀ r ∈ rs, scoreOf q r ≤ scoreOf q c) ∧
      (∀ j : Nat, j < i → ∀ r, rs[j]? = some r → scoreOf q r < scoreOf q c) := by
  unfold itunes_pick at h
  split at h
  · simp at h
  · rename_i i hx
    split at h
    case _ r hr =>
      simp only [Except.ok.injEq] at h
      subst h
      unfold np_argmax at hx
      cases hax : argmaxCore (rs.map (scoreOf q)) with
      | none => rw [hax] at hx; simp at hx
      | some p =>
        obtain ⟨i', v⟩ := p
        rw [hax] at hx
        simp only [Option.map_some', Option.some.injEq] at hx
        subst hx
        have hv : (rs.map (scoreOf q))[i']? = some v := argmaxCore_getElem hax
        rw [List.getElem?_map, hr] at hv
        simp only [Option.map_some', Option.some.injEq] at hv
        subst hv
        refine ⟨i', hr, ?_, ?_⟩
        · intro r' hr'
          exact argmaxCore_le hax _ (List.mem_map_of_mem _ hr')
        · intro j hj r' hr'
          refine argmaxCore_first hax j hj _ ?_
          rw [List.getElem?_map, hr']
          rfl
    case _ hr => simp at h

/-- On a non-empty candidate sequence the fuzzy selection always produces a
candidate (there is no acceptance threshold in the code). -/
theorem itunes_pick_total {q : String} {rs : List Candidate} (h : rs ≠ []) :
    ∃ c, itunes_pick q rs = Except.ok c := by
  cases rs with
  | nil => exact absurd rfl h
  | cons x xs =>
    cases hax : argmaxCore ((x :: xs).map (scoreOf q)) with
    | none =>
      have hnil := argmaxCore_eq_none hax
      simp at hnil
    | some p =>
      obtain ⟨i, v⟩ := p
      have hv := argmaxCore_getElem hax
      rw [List.getElem?_map] at hv
      cases hr : (x :: xs)[i]? with
      | none => rw [hr] at hv; simp at hv
      | some r =>
        refine ⟨r, ?_⟩
        unfold itunes_pick np_argmax
        rw [hax]
        simp [hr]

/-! ## Properties of the Metadata Merge model -/

/-- The spec's per-scalar-field merge contract, relating a destination value
`d`, a source value `s` and the merge result `r`: present-and-no-overwrite
keeps the destination, present-and-overwrite takes a supplied source value,
and an absent destination is always set from the source. -/
def scalarMergeSpec {α : Type} (d s r : Option α) (overwrite : Bool) : Prop :=
  (overwrite = false → d.isSome → r = d) ∧
  (overwrite = true → d.isSome → s.isSome → r = s) ∧
  (d = none → r = s)

theorem mergeScalar_spec {α : Type} (d s : Option α) (ow : Bool) :
    scalarMergeSpec d s (mergeScalar d s ow) ow := by
  cases d <;> cases s <;> cases ow <;>
    simp [scalarMergeSpec, mergeScalar]

theorem mergeScalar_false_idem {α : Type} (d s : Option α) :
    mergeScalar (mergeScalar d s false) s false = mergeScalar d s false := by
  cases d <;> cases s <;> simp [mergeScalar]

theorem mergeNameList_false_idem (d s : Option (List String)) :
    mergeNameList (mergeNameList d s false) s false = mergeNameList d s false := by
  cases d <;> cases s <;> simp [mergeNameList]

/-! ## Claims -/

/-- C1, counterexample: the notebook's TIDAL identifier match is a plain
string equality.  A query identifier that differs from a candidate's only in
letter case (or only in leading zeros) is equal after the spec's normalization,
yet the code selects no candidate. -/
theorem C1_counterexample :
    spec_normalize_id "gb2ld0901581" = spec_normalize_id "GB2LD0901581" ∧
    tidal_pick (some "gb2ld0901581")
      [{ artistName := "Spektrem", trackName := "Shine",
         isrc := some "GB2LD0901581" }] = none ∧
    spec_normalize_id "0012345" = spec_normalize_id "12345" ∧
    tidal_pick (some "0012345")
      [{ artistName := "A", trackName := "B", isrc := some "12345" }] = none := by
  refine ⟨rfl, by decide, rfl, by decide⟩

/-- C1 (amended): for a query carrying an identifier, the TIDAL selection
returns the first candidate whose identifier field is exactly equal to the
query's identifier (byte-for-byte: no case normalization and no leading-zero
stripping), regardless of any text similarity. -/
theorem C1_exact_identifier_first (q : Option String) (rs : List Candidate)
    (i : Nat) (c : Candidate) (hc : c.isrc = q) :
    rs[i]? = some c →
    (∀ j : Nat, j < i → ∀ r, rs[j]? = some r → r.isrc ≠ q) →
    tidal_pick q rs = some c := by
  induction rs generalizing i with
  | nil => intro hi _; simp at hi
  | cons x xs ih =>
    intro hi hfirst
    cases i with
    | zero =>
      simp only [List.getElem?_cons_zero, Option.some.injEq] at hi
      subst hi
      unfold tidal_pick
      rw [List.find?_cons_of_pos]
      simp [hc]
    | succ n =>
      have hx : x.isrc ≠ q := hfirst 0 (Nat.succ_pos n) x (by simp)
      unfold tidal_pick
      rw [List.find?_cons_of_neg _ (by simp [hx])]
      exact ih n (by simpa using hi)
        (fun j hj r hr => hfirst (j + 1) (by omega) r (by simpa using hr))

/-- Witness for C1 (amended): the first exactly-matching candidate is returned
even when an earlier candidate with a different identifier is present and a
later candidate also matches. -/
theorem C1_exact_identifier_first_witness :
    tidal_pick (some "GB2LD0901581")
      [{ artistName := "Other", trackName := "Track", isrc := some "US1234567890" },
       { artistName := "Spektrem", trackName := "Shine", isrc := some "GB2LD0901581" },
       { artistName := "Dup", trackName := "Entry", isrc := some "GB2LD0901581" }] =
      some { artistName := "Spektrem", trackName := "Shine",
             isrc := some "GB2LD0901581" } :=
  C1_exact_identifier_first (some "GB2LD0901581") _ 1 _ rfl rfl
    (fun j hj r hr => by
      match j, hj with
      | 0, _ =>
        simp only [List.getElem?_cons_zero, Option.some.injEq] at hr
        subst hr
        decide)

/-- C4, counterexample: on the empty candidate sequence the matching code does
not produce a no-match value; the fuzzy path raises `ValueError` inside
`np.argmax`, and the TIDAL path's `next(..., None)` is immediately
dereferenced, raising `TypeError`. -/
theorem C4_counterexample :
    itunes_pick "spektrem shine" [] =
      Except.error "ValueError: attempt to get argmax of an empty sequence" ∧
    tidal_flow none [] =
      Except.error "TypeError: NoneType object is not subscriptable" :=
  ⟨rfl, rfl⟩

/-- C4 (amended): for every query, the empty candidate sequence makes the
fuzzy selection raise `ValueError` (from `np.argmax` of an empty sequence) and
makes the TIDAL flow raise `TypeError` (subscripting `None`); absence is
signaled by an exception, not by a no-match result value. -/
theorem C4_empty_input_raises (q : String) (isrc : Option String) :
    itunes_pick q [] =
      Except.error "ValueError: attempt to get argmax of an empty sequence" ∧
    tidal_flow isrc [] =
      Except.error "TypeError: NoneType object is not subscriptable" :=
  ⟨rfl, rfl⟩

/-- C5: for every scalar `TagSet` field, one Metadata Merge call obeys the
per-field contract: a present destination is kept when overwrite was not
requested, replaced by a supplied source value when overwrite was requested,
and an absent destination is always set from the source. -/
theorem C5_scalar_merge_semantics (dst src : TagSet) (ow : Bool) :
    scalarMergeSpec dst.genre src.genre (mergeTags dst src ow).genre ow ∧
    scalarMergeSpec dst.album src.album (mergeTags dst src ow).album ow ∧
    scalarMergeSpec dst.album_artist src.album_artist (mergeTags dst src ow).album_artist ow ∧
    scalarMergeSpec dst.artist src.artist (mergeTags dst src ow).artist ow ∧
    scalarMergeSpec dst.comment src.comment (mergeTags dst src ow).comment ow ∧
    scalarMergeSpec dst.compilation src.compilation (mergeTags dst src ow).compilation ow ∧
    scalarMergeSpec dst.copyright src.copyright (mergeTags dst src ow).copyright ow ∧
    scalarMergeSpec dst.date src.date (mergeTags dst src ow).date ow ∧
    scalarMergeSpec dst.isrc src.isrc (mergeTags dst src ow).isrc ow ∧
    scalarMergeSpec dst.lyrics src.lyrics (mergeTags dst src ow).lyrics ow ∧
    scalarMergeSpec dst.tempo src.tempo (mergeTags dst src ow).tempo ow ∧
    scalarMergeSpec dst.title src.title (mergeTags dst src ow).title ow ∧
    scalarMergeSpec dst.disc_number src.disc_number (mergeTags dst src ow).disc_number ow ∧
    scalarMergeSpec dst.disc_count src.disc_count (mergeTags dst src ow).disc_count ow ∧
    scalarMergeSpec dst.track_number src.track_number (mergeTags dst src ow).track_number ow ∧
    scalarMergeSpec dst.track_count src.track_count (mergeTags dst src ow).track_count ow ∧
    scalarMergeSpec dst.artwork src.artwork (mergeTags dst src ow).artwork ow := by
  refine ⟨?_, ?_, ?_, ?_, ?_, ?_, ?_, ?_, ?_, ?_, ?_, ?_, ?_, ?_, ?_, ?_, ?_⟩ <;>
    exact mergeScalar_spec _ _ _

/-- Witness for C5 at the spec's example: a `TagSet` with `genre="Pop"` merged
with a source supplying `genre="Electronic"` keeps "Pop" without overwrite and
becomes "Electronic" with overwrite. -/
theorem C5_scalar_merge_semantics_witness :
    (mergeTags { genre := some "Pop" } { genre := some "Electronic" } false).genre
      = some "Pop" ∧
    (mergeTags { genre := some "Pop" } { genre := some "Electronic" } true).genre
      = some "Electronic" := by
  constructor
  · exact ((C5_scalar_merge_semantics { genre := some "Pop" }
      { genre := some "Electronic" } false).1.1 rfl (by decide)).trans rfl
  · exact ((C5_scalar_merge_semantics { genre := some "Pop" }
      { genre := some "Electronic" } true).1.2.1 rfl (by decide) (by decide)).trans rfl

/-- C6: the list-valued composer field merges with overwrite by appending only
source values not already present, where presence is decided by
case-insensitive exact string comparison only: the spec's `["Alice"]` +
`["Alice","Bob"]` example yields `["Alice","Bob"]`; a case variant of a
present name is not appended; a near-duplicate spelling of the same person is
kept as a distinct entry. -/
theorem C6_list_merge_case_insensitive_dedup :
    (mergeTags { composer := some ["Alice"] }
      { composer := some ["Alice", "Bob"] } true).composer = some ["Alice", "Bob"] ∧
    (mergeTags { composer := some ["ALICE"] }
      { composer := some ["alice"] } true).composer = some ["ALICE"] ∧
    (mergeTags { composer := some ["Tobu"] }
      { composer := some ["Toms Burkovskis"] } true).composer
      = some ["Tobu", "Toms Burkovskis"] := by
  refine ⟨?_, ?_, ?_⟩ <;> decide

/-- C8: Metadata Merge without overwrite is idempotent: applying the same
source mapping twice yields the same `TagSet` as applying it once. -/
theorem C8_merge_false_idempotent (dst src : TagSet) :
    mergeTags (mergeTags dst src false) src false = mergeTags dst src false := by
  simp [mergeTags, mergeScalar_false_idem, mergeNameList_false_idem]

/-- C9: a Metadata Merge call (with or without overwrite) leaves the file's
intrinsic technical properties — bitrate, sample rate, channel count, codec
(and bit depth) — unchanged; only the `TagSet` is modified, and it is modified
exactly by the field-by-field merge. -/
theorem C9_merge_preserves_technical_properties (f : AudioFile) (src : TagSet)
    (ow : Bool) :
    (set_metadata f src ow).bitrate = f.bitrate ∧
    (set_metadata f src ow).sample_rate = f.sample_rate ∧
    (set_metadata f src ow).channel_count = f.channel_count ∧
    (set_metadata f src ow).codec = f.codec ∧
    (set_metadata f src ow).bit_depth = f.bit_depth ∧
    (set_metadata f src ow).tags = mergeTags f.tags src ow :=
  ⟨rfl, rfl, rfl, rfl, rfl, rfl⟩

/-- C10: converting a handler to another container format preserves every
in-memory tag field (the whole `TagSet`, including fields never written to the
file) and the channel count and sample rate, while the format-intrinsic bit
depth, bitrate and codec take the target format's values and the handler now
reports the target format's codec. -/
theorem C10_convert_preserves_tags (f : AudioFile) (target : String)
    (bd : Option Nat) (br : Nat) :
    (convert f target bd br).tags = f.tags ∧
    (convert f target bd br).channel_count = f.channel_count ∧
    (convert f target bd br).sample_rate = f.sample_rate ∧
    (convert f target bd br).codec = target ∧
    (convert f target bd br).bit_depth = bd ∧
    (convert f target bd br).bitrate = br :=
  ⟨rfl, rfl, rfl, rfl, rfl, rfl⟩

/-- C2: whenever the fuzzy selection returns a candidate, that candidate is in
the sequence and its similarity score — the Levenshtein ratio between the
case-folded query text and the candidate's case-folded artist-and-title
concatenation — is maximal: no candidate in the sequence scores strictly
higher. -/
theorem C2_fuzzy_pick_maximal (q : String) (rs : List Candidate) (c : Candidate)
    (h : itunes_pick q rs = Except.ok c) :
    c ∈ rs ∧ ∀ r ∈ rs,
      levenshtein_ratio q (candText r) ≤ levenshtein_ratio q (candText c) := by
  obtain ⟨i, hi, hmax, _⟩ := itunes_pick_ok_spec h
  exact ⟨List.getElem?_mem hi, hmax⟩

/-- Witness for C2: the exact-text candidate is selected over a dissimilar one
and its score is maximal. -/
theorem C2_fuzzy_pick_maximal_witness :
    (⟨"a", "b", none, none⟩ : Candidate) ∈
        [(⟨"a", "b", none, none⟩ : Candidate), ⟨"z", "q", none, none⟩] ∧
      ∀ r ∈ [(⟨"a", "b", none, none⟩ : Candidate), ⟨"z", "q", none, none⟩],
        levenshtein_ratio "a b" (candText r) ≤
          levenshtein_ratio "a b" (candText ⟨"a", "b", none, none⟩) :=
  C2_fuzzy_pick_maximal "a b" _ _ (by
    have h0 : levenshtein Levenshtein.defaultCost "a b".data "a b".data = 0 := rfl
    have h1 : levenshtein Levenshtein.defaultCost "a b".data "z q".data = 2 := rfl
    have hc1 : candText ⟨"a", "b", none, none⟩ = "a b" := rfl
    have hc2 : candText ⟨"z", "q", none, none⟩ = "z q" := rfl
    have hl1 : ("a b".length) = 3 := rfl
    have hl2 : ("z q".length) = 3 := rfl
    norm_num [itunes_pick, np_argmax, argmaxCore, scoreOf, levenshtein_ratio,
      hc1, hc2, h0, h1, hl1, hl2])

/-- C3, counterexample: with a maximum similarity score of only 1/9 the code
still returns the best-scoring candidate rather than a no-match result; no
acceptance threshold is applied, refuting the claim for every threshold above
1/9. -/
theorem C3_counterexample :
    itunes_pick "aaaa aaaa" [⟨"zzzz", "zzzz", none, none⟩] =
      Except.ok ⟨"zzzz", "zzzz", none, none⟩ ∧
    scoreOf "aaaa aaaa" ⟨"zzzz", "zzzz", none, none⟩ = 1 / 9 := by
  refine ⟨rfl, ?_⟩
  have h8 : levenshtein Levenshtein.defaultCost "aaaa aaaa".data "zzzz zzzz".data = 8 := rfl
  have hc : candText ⟨"zzzz", "zzzz", none, none⟩ = "zzzz zzzz" := rfl
  have hl1 : ("aaaa aaaa".length) = 9 := rfl
  have hl2 : ("zzzz zzzz".length) = 9 := rfl
  norm_num [scoreOf, levenshtein_ratio, hc, h8, hl1, hl2]

/-- C3 (amended): the fuzzy selection applies no acceptance threshold: for
every query and every non-empty candidate sequence it returns a candidate,
however low the maximum similarity score is; a no-match result does not exist
in this code path. -/
theorem C3_no_threshold (q : String) (rs : List Candidate) (h : rs ≠ []) :
    ∃ c, itunes_pick q rs = Except.ok c :=
  itunes_pick_total h

/-- Witness for C3 (amended) at a candidate whose score is only 1/9. -/
theorem C3_no_threshold_witness :
    ∃ c, itunes_pick "aaaa aaaa" [⟨"zzzz", "zzzz", none, none⟩] = Except.ok c :=
  C3_no_threshold "aaaa aaaa" [⟨"zzzz", "zzzz", none, none⟩] (by decide)

/-- C7, counterexample: two candidates tie at the maximum score; the second's
count field (`trackCount = 3`) matches an expected count of 3 while the
first's does not, yet the code returns the first — the count field is never
consulted. -/
theorem C7_counterexample :
    scoreOf "a b" ⟨"a", "b", none, some 5⟩ = scoreOf "a b" ⟨"a", "b", none, some 3⟩ ∧
    (⟨"a", "b", none, some 5⟩ : Candidate).trackCount = some 5 ∧
    (⟨"a", "b", none, some 3⟩ : Candidate).trackCount = some 3 ∧
    itunes_pick "a b" [⟨"a", "b", none, some 5⟩, ⟨"a", "b", none, some 3⟩] =
      Except.ok ⟨"a", "b", none, some 5⟩ ∧
    (⟨"a", "b", none, some 5⟩ : Candidate) ≠ ⟨"a", "b", none, some 3⟩ := by
  refine ⟨rfl, rfl, rfl, ?_, by decide⟩
  have h0 : levenshtein Levenshtein.defaultCost "a b".data "a b".data = 0 := rfl
  have hc1 : candText ⟨"a", "b", none, some 5⟩ = "a b" := rfl
  have hc2 : candText ⟨"a", "b", none, some 3⟩ = "a b" := rfl
  have hl1 : ("a b".length) = 3 := rfl
  norm_num [itunes_pick, np_argmax, argmaxCore, scoreOf, levenshtein_ratio,
    hc1, hc2, h0, hl1]

/-- C7 (amended): ties are broken by sequence order alone: the returned
candidate sits at the first index attaining the maximum score — every earlier
candidate scores strictly lower — and no count field is consulted. -/
theorem C7_first_of_max (q : String) (rs : List Candidate) (c : Candidate)
    (h : itunes_pick q rs = Except.ok c) :
    ∃ i : Nat, rs[i]? = some c ∧
      ∀ j : Nat, j < i → ∀ r, rs[j]? = some r → scoreOf q r < scoreOf q c := by
  obtain ⟨i, hi, _, hfirst⟩ := itunes_pick_ok_spec h
  exact ⟨i, hi, hfirst⟩

/-- Witness for C7 (amended) at a two-way tie: the first tied candidate is the
selected one. -/
theorem C7_first_of_max_witness :
    ∃ i : Nat,
      [(⟨"a", "b", none, some 5⟩ : Candidate), ⟨"a", "b", none, some 3⟩][i]? =
          some (⟨"a", "b", none, some 5⟩ : Candidate) ∧
        ∀ j : Nat, j < i → ∀ r,
          [(⟨"a", "b", none, some 5⟩ : Candidate), ⟨"a", "b", none, some 3⟩][j]? =
              some r →
            scoreOf "a b" r < scoreOf "a b" (⟨"a", "b", none, some 5⟩ : Candidate) :=
  C7_first_of_max "a b" _ _ (by
    have h0 : levenshtein Levenshtein.defaultCost "a b".data "a b".data = 0 := rfl
    have hc1 : candText ⟨"a", "b", none, some 5⟩ = "a b" := rfl
    have hc2 : candText ⟨"a", "b", none, some 3⟩ = "a b" := rfl
    have hl1 : ("a b".length) = 3 := rfl
    norm_num [itunes_pick, np_argmax, argmaxCore, scoreOf, levenshtein_ratio,
      hc1, hc2, h0, hl1])

end Minim
